import Mathlib

/-!
Verification development for the `uiauto` recording pipeline
(`src/uiauto/recorder.py`).  The definitions below are a shallow embedding
of the recorder's data model and of the operations the claims are about:
the typing-span state machine (`_handle_typing`, `_flush_typing_unsafe`,
`_flush_checker`), the mouse/keyboard callbacks (`_on_mouse_click`,
`_on_key_press`, `_on_key_release`), element caching (`_ensure_element`),
element refinement (`_refine_element`), the element-map merge
(`save_elements`) and the stop protocol (`stop`).

Python dictionaries are embedded as insertion-ordered association lists,
machine time as natural-number milliseconds, and the fallible
accessibility-tree queries as `Option`-valued oracles supplied by the
environment.  The two helper functions imported from the `inspector`
module (`_normalize_key`, `_make_locator_candidates`), whose source is not
part of this repository snapshot, are taken as explicit function
parameters: the recorder only ever applies them opaquely.
-/

namespace UIAuto

/-- Locator variants of the data model (`§3 Locator` of the design:
`by name / name regex / automation id / class+role / title regex`).
The recorder compares locators only for equality. -/
inductive Locator where
  | byName (s : String)
  | byNameRe (s : String)
  | byAutoId (s : String)
  | byClassRole (c r : String)
  | byTitleRe (s : String)
deriving DecidableEq, Repr

/-- An element specification as built by `Recorder._ensure_element`
(`{"window": ..., "when": {"state": ...}, "locators": [...]}`) and as
stored in the persisted `elements` block.  `whenState` is
`elements_block[key].get("when", {}).get("state")`: persisted entries may
lack the `when` block, hence the `Option`. -/
structure ElementSpec where
  window : String
  whenState : Option String
  locators : List Locator
deriving DecidableEq, Repr

/-- A recorded semantic step: `{"click": {"element": k}}`,
`{"type": {"element": k, "text": t}}` or `{"hotkey": {"keys": h}}`. -/
inductive Step where
  | click (element : String)
  | type (element : String) (text : String)
  | hotkey (keys : String)
deriving DecidableEq, Repr

/-- The element key a step refers to, if any. -/
def stepElem : Step → Option String
  | .click e => some e
  | .type e _ => some e
  | .hotkey _ => none

/-- The element-attribute record produced by `extract_control_info`
(fields read by `_ensure_element`: `name`, `auto_id`, `control_type`,
`locator_candidates`). -/
structure ElementInfo where
  name : Option String
  autoId : Option String
  controlType : Option String
  locatorCandidates : List Locator
deriving DecidableEq, Repr

/-- `elements_cache` / `elements_block`: a Python dict embedded as an
insertion-ordered association list with unique-key write semantics. -/
abbrev ElementMap := List (String × ElementSpec)

/-- Dict lookup: `m.get(k)` / `m[k]`. -/
def alistLookup (m : ElementMap) (k : String) : Option ElementSpec :=
  match m with
  | [] => none
  | (k', v) :: rest => if k' = k then some v else alistLookup rest k

/-- Dict assignment `m[k] = v`: replaces the entry in place when the key
is present, appends otherwise (Python dicts keep insertion order). -/
def alistSet (m : ElementMap) (k : String) (v : ElementSpec) : ElementMap :=
  match m with
  | [] => [(k, v)]
  | (k', v') :: rest =>
      if k' = k then (k, v) :: rest else (k', v') :: alistSet rest k v

/-- The key set of the dict, in insertion order. -/
def elementKeys (m : ElementMap) : List String := m.map Prod.fst

/-- Python string-or chaining `a or b` on optional strings
(`None` and `""` are falsy). -/
def pyOr (a : Option String) (b : String) : String :=
  match a with
  | some s => if s = "" then b else s
  | none => b

/-- `existing_locs and candidates and existing_locs[0] == candidates[0]`:
both lists non-empty and their first-ranked locators equal. -/
def locHeadMatches (cands locs : List Locator) : Bool :=
  match locs, cands with
  | l :: _, c :: _ => l == c
  | _, _ => false

/-- The lookup loop of `_ensure_element`: the first cached entry whose
first-ranked locator equals the first-ranked candidate. -/
def findMatch (cands : List Locator) : ElementMap → Option String
  | [] => none
  | (k, sp) :: rest =>
      if locHeadMatches cands sp.locators then some k else findMatch cands rest

/-- The `while elem_key in self.elements_cache` loop of `_ensure_element`:
tries `base_1`, `base_2`, ... in turn.  `fuel` bounds the search; the
caller passes more fuel than there are keys, so the fallback arm is
unreachable. -/
def freshKeyLoop (keys : List String) (base : String) : Nat → Nat → String
  | counter, 0 => base ++ "_" ++ toString counter
  | counter, fuel + 1 =>
      let cand := base ++ "_" ++ toString counter
      if cand ∈ keys then freshKeyLoop keys base (counter + 1) fuel else cand

/-- Unique-key generation of `_ensure_element`: `base` itself when free,
otherwise the first free `base_<n>`. -/
def freshKey (keys : List String) (base : String) : String :=
  if base ∈ keys then freshKeyLoop keys base 1 (keys.length + 1) else base

/-- `candidates = element_info.get("locator_candidates", []) or
_make_locator_candidates(element_info)` (the second factor only when the
stored list is empty). -/
def effCandidates (mkCands : ElementInfo → List Locator)
    (info : ElementInfo) : List Locator :=
  if info.locatorCandidates = [] then mkCands info else info.locatorCandidates

/-- `Recorder._ensure_element` (recorder.py:1040-1084): look the element
up by its first-ranked locator, otherwise mint a fresh key and insert a
new spec carrying the top three candidates.  `mkCands` and `normKey`
stand for the opaque `inspector._make_locator_candidates` and
`inspector._normalize_key`.  Returns the key together with the updated
cache. -/
def ensureElement (mkCands : ElementInfo → List Locator)
    (normKey : String → String) (win st : String)
    (cache : ElementMap) (info : ElementInfo) : String × ElementMap :=
  let candidates := effCandidates mkCands info
  let baseKey := normKey (pyOr info.name (pyOr info.autoId (pyOr info.controlType "element")))
  match findMatch candidates cache with
  | some k => (k, cache)
  | none =>
      let key := freshKey (elementKeys cache) baseKey
      (key, alistSet cache key ⟨win, some st, candidates.take 3⟩)

/-- One iteration of the merge loop of `Recorder.save_elements`
(recorder.py:400-413): absent key → insert; present with a different
`when.state` → insert under the derived key `key__state`; present with
the same state → leave the document unchanged. -/
def mergeOne (st : String) (eb : ElementMap) (kv : String × ElementSpec) :
    ElementMap :=
  match alistLookup eb kv.1 with
  | none => alistSet eb kv.1 kv.2
  | some e =>
      if e.whenState = some st then eb
      else alistSet eb (kv.1 ++ "__" ++ st) kv.2

/-- The full merge loop of `Recorder.save_elements`: fold the session
cache, in insertion order, into the persisted `elements` block. -/
def mergeElements (eb : ElementMap) (cache : ElementMap) (st : String) :
    ElementMap :=
  cache.foldl (mergeOne st) eb

/-- The typing-span state: `_typing_element_key`, `_typing_buffer` and
`_last_action_time` (time in milliseconds). -/
structure TypingState where
  key : Option String
  buffer : List String
  lastAction : Nat
deriving DecidableEq, Repr

/-- `self._typing_timeout = 2.0` seconds, in milliseconds. -/
def typingTimeout : Nat := 2000

/-- `Recorder._flush_typing_unsafe` (recorder.py:699-716): with a falsy
buffer or a falsy element key the flush is a no-op; otherwise it emits a
single `type` step whose text joins the buffered characters and clears
the span. -/
def flushTypingUnsafe (ts : TypingState) : TypingState × Option Step :=
  match ts.key with
  | none => (ts, none)
  | some k =>
      if ts.buffer = [] ∨ k = "" then (ts, none)
      else ({ ts with key := none, buffer := [] },
            some (Step.type k (String.join ts.buffer)))

/-- The buffering core of `Recorder._handle_typing`
(recorder.py:681-689), after the focused element has been resolved to
`elemKey`: flush first when a different (truthy) element was
accumulating, then append the character and stamp the activity time. -/
def handleTyping (ts : TypingState) (elemKey : String) (c : String)
    (now : Nat) : TypingState × Option Step :=
  let doFlush : Bool :=
    match ts.key with
    | some k' => (k' != "") && (k' != elemKey)
    | none => false
  let r := if doFlush then flushTypingUnsafe ts else (ts, none)
  ({ key := some elemKey, buffer := r.1.buffer ++ [c], lastAction := now },
   r.2)

/-- One firing of the `Recorder._flush_checker` loop body
(recorder.py:724-727) at time `now`: flush when the buffer is non-empty
and the span has been inactive for longer than the timeout. -/
def flushCheckerFire (ts : TypingState) (now : Nat) :
    TypingState × Option Step :=
  if ts.buffer ≠ [] ∧ now - ts.lastAction > typingTimeout then
    flushTypingUnsafe ts
  else (ts, none)

/-- The recorder fields the event callbacks read and write:
control flags, modifier-key flags, the step list, the in-session element
cache, the typing span and the count of operator warnings printed. -/
structure RecState where
  recording : Bool
  stopping : Bool
  stopRequested : Bool
  stopEventSet : Bool
  ctrlPressed : Bool
  altPressed : Bool
  shiftPressed : Bool
  winPressed : Bool
  steps : List Step
  cache : ElementMap
  typing : TypingState
  warnings : Nat
deriving DecidableEq, Repr

/-- `Recorder._flush_typing` lifted to the recorder state: run the flush
under the lock and append the emitted step, if any, to the step list. -/
def flushTypingState (s : RecState) : RecState :=
  { s with typing := (flushTypingUnsafe s.typing).1,
           steps := s.steps ++ (flushTypingUnsafe s.typing).2.toList }

/-- The capture-with-retries loop of `_on_mouse_click`
(recorder.py:565-569): `oracle i` is the outcome of attempt `i` of
`_capture_element_at_point`; the loop keeps the first success among the
first `n` attempts. -/
def firstCapture (oracle : Nat → Option ElementInfo) : Nat → Option ElementInfo
  | 0 => none
  | n + 1 =>
      match firstCapture oracle n with
      | some x => some x
      | none => oracle n

/-- `Recorder._on_mouse_click` (recorder.py:550-585).  The guard ignores
the event unless recording, pressed and not stopping; then any pending
typing is flushed, the element at the click point is captured with up to
three attempts, and on success a `click` step is appended after the
element has been ensured in the cache.  A failed capture drops the event
with an operator warning. -/
def onMouseClick (mkCands : ElementInfo → List Locator)
    (normKey : String → String) (win st : String)
    (oracle : Nat → Option ElementInfo) (now : Nat)
    (pressed : Bool) (s : RecState) : RecState :=
  if ¬s.recording ∨ ¬pressed ∨ s.stopping then s
  else
    match firstCapture oracle 3 with
    | none =>
        { flushTypingState s with
          warnings := (flushTypingState s).warnings + 1 }
    | some info =>
        { flushTypingState s with
          cache := (ensureElement mkCands normKey win st
            (flushTypingState s).cache info).2,
          steps := (flushTypingState s).steps ++
            [Step.click (ensureElement mkCands normKey win st
              (flushTypingState s).cache info).1],
          typing := { (flushTypingState s).typing with lastAction := now } }

/-- `Recorder._handle_typing` (recorder.py:669-692) lifted to the
recorder state: resolve the focused element (`focusOracle` is the outcome
of `_capture_focused_element`; `none` aborts silently), ensure it in the
cache, then buffer the character through `handleTyping`. -/
def handleTypingState (mkCands : ElementInfo → List Locator)
    (normKey : String → String) (win st : String)
    (focusOracle : Option ElementInfo) (now : Nat) (c : String)
    (s : RecState) : RecState :=
  match focusOracle with
  | none => s
  | some info =>
      { s with
        cache := (ensureElement mkCands normKey win st s.cache info).2,
        typing := (handleTyping s.typing
          (ensureElement mkCands normKey win st s.cache info).1 c now).1,
        steps := s.steps ++ (handleTyping s.typing
          (ensureElement mkCands normKey win st s.cache info).1 c now).2.toList }

/-- A pynput key event: character keys carry `char`, special keys carry
`name`. -/
structure KeyEvent where
  char : Option String
  name : Option String
deriving DecidableEq, Repr

/-- `MODIFIER_KEY_NAMES` (recorder.py:86-91). -/
def MODIFIER_KEY_NAMES : List String :=
  ["ctrl", "ctrl_l", "ctrl_r", "alt", "alt_l", "alt_r",
   "shift", "shift_r", "cmd", "cmd_r"]

/-- `Recorder._is_modifier_key` (recorder.py:1090-1097). -/
def isModifierKey (k : KeyEvent) : Bool :=
  match k.name with
  | some n => MODIFIER_KEY_NAMES.contains n.toLower
  | none => false

/-- The special-key arm of `Recorder._get_char`. -/
def getCharSpecial (k : KeyEvent) : Option String :=
  match k.name with
  | some "space" => some " "
  | some "enter" => some "\n"
  | some "tab" => some "\t"
  | _ => none

/-- `Recorder._get_char` (recorder.py:1099-1117): a truthy `char`
attribute wins; space, enter and tab map to their characters; other
special keys yield nothing. -/
def getChar (k : KeyEvent) : Option String :=
  match k.char with
  | some c => if c = "" then getCharSpecial k else some c
  | none => getCharSpecial k

/-- The special-key notation table of `Recorder._format_hotkey`
(recorder.py:1153-1163). -/
def specialKeys : List (String × String) :=
  [("f1", "\x7bF1\x7d"), ("f2", "\x7bF2\x7d"), ("f3", "\x7bF3\x7d"),
   ("f4", "\x7bF4\x7d"), ("f5", "\x7bF5\x7d"), ("f6", "\x7bF6\x7d"),
   ("f7", "\x7bF7\x7d"), ("f8", "\x7bF8\x7d"), ("f9", "\x7bF9\x7d"),
   ("f10", "\x7bF10\x7d"), ("f11", "\x7bF11\x7d"), ("f12", "\x7bF12\x7d"),
   ("esc", "\x7bESC\x7d"), ("escape", "\x7bESC\x7d"),
   ("delete", "\x7bDELETE\x7d"), ("del", "\x7bDELETE\x7d"),
   ("backspace", "\x7bBACKSPACE\x7d"), ("back", "\x7bBACKSPACE\x7d"),
   ("home", "\x7bHOME\x7d"), ("end", "\x7bEND\x7d"),
   ("page_up", "\x7bPGUP\x7d"), ("page_down", "\x7bPGDN\x7d"),
   ("up", "\x7bUP\x7d"), ("down", "\x7bDOWN\x7d"),
   ("left", "\x7bLEFT\x7d"), ("right", "\x7bRIGHT\x7d")]

/-- `Recorder._format_hotkey` (recorder.py:1119-1172): key text from the
truthy `char` or else the `name`; modifier-only presses yield nothing;
the held-modifier flags build the prefix and special key names are mapped
to replay notation. -/
def formatHotkey (s : RecState) (k : KeyEvent) : Option String :=
  let keyStr? : Option String :=
    match k.char with
    | some c => if c = "" then k.name else some c
    | none => k.name
  match keyStr? with
  | none => none
  | some keyStr =>
      if MODIFIER_KEY_NAMES.contains keyStr.toLower then none
      else
        let parts :=
          (if s.ctrlPressed then "^" else "") ++
          (if s.altPressed then "%" else "") ++
          (if s.shiftPressed then "+" else "") ++
          (if s.winPressed then "\x7bLWIN\x7d" else "")
        let mapped :=
          match specialKeys.lookup keyStr.toLower with
          | some r => r
          | none => keyStr
        some (parts ++ mapped)

/-- The modifier-tracking block at the top of `_on_key_press`
(recorder.py:600-607). -/
def updateModsPress (s : RecState) (k : KeyEvent) : RecState :=
  if k.name = some "ctrl_l" ∨ k.name = some "ctrl_r" then
    { s with ctrlPressed := true }
  else if k.name = some "alt_l" ∨ k.name = some "alt_r" then
    { s with altPressed := true }
  else if k.name = some "shift" ∨ k.name = some "shift_r" then
    { s with shiftPressed := true }
  else if k.name = some "cmd" ∨ k.name = some "cmd_r" then
    { s with winPressed := true }
  else s

/-- The plain-character tail of `_on_key_press` (recorder.py:644-646):
type only when the extracted character is truthy and no modifier other
than Shift is held. -/
def keyPressCharPath (mkCands : ElementInfo → List Locator)
    (normKey : String → String) (win st : String)
    (focusOracle : Option ElementInfo) (now : Nat) (k : KeyEvent)
    (s : RecState) : RecState :=
  match getChar k with
  | some c =>
      if c ≠ "" ∧ ¬(s.ctrlPressed ∨ s.altPressed ∨ s.winPressed) then
        handleTypingState mkCands normKey win st focusOracle now c s
      else s
  | none => s

/-- The body of `_on_key_press` after the guards and the modifier
update (recorder.py:609-646): suppress the stop hotkey
(Ctrl+Shift+F12/End), emit a `hotkey` step when a Ctrl/Alt/Win modifier
is held with a formattable non-modifier key (flushing pending typing
first), and otherwise buffer a plain character. -/
def onKeyPressBody (mkCands : ElementInfo → List Locator)
    (normKey : String → String) (win st : String)
    (focusOracle : Option ElementInfo) (now : Nat) (k : KeyEvent)
    (s : RecState) : RecState :=
  if s.ctrlPressed ∧ s.shiftPressed ∧
      ((k.name.getD "").toLower = "f12" ∨ (k.name.getD "").toLower = "end")
  then s
  else if (s.ctrlPressed ∨ s.altPressed ∨ s.winPressed) ∧ ¬isModifierKey k then
    match formatHotkey s k with
    | some h =>
        { flushTypingState s with
          steps := (flushTypingState s).steps ++ [Step.hotkey h],
          typing := { (flushTypingState s).typing with lastAction := now } }
    | none => keyPressCharPath mkCands normKey win st focusOracle now k s
  else keyPressCharPath mkCands normKey win st focusOracle now k s

/-- `Recorder._on_key_press` (recorder.py:587-649): the stop-requested
flag short-circuits first, then the recording/stopping guard; then the
modifier flags are tracked and the body runs on the updated state. -/
def onKeyPress (mkCands : ElementInfo → List Locator)
    (normKey : String → String) (win st : String)
    (focusOracle : Option ElementInfo) (now : Nat) (k : KeyEvent)
    (s : RecState) : RecState :=
  if s.stopRequested then s
  else if ¬s.recording ∨ s.stopping then s
  else onKeyPressBody mkCands normKey win st focusOracle now k
    (updateModsPress s k)

/-- `Recorder._on_key_release` (recorder.py:651-663). -/
def onKeyRelease (k : KeyEvent) (s : RecState) : RecState :=
  if k.name = some "ctrl_l" ∨ k.name = some "ctrl_r" then
    { s with ctrlPressed := false }
  else if k.name = some "alt_l" ∨ k.name = some "alt_r" then
    { s with altPressed := false }
  else if k.name = some "shift" ∨ k.name = some "shift_r" then
    { s with shiftPressed := false }
  else if k.name = some "cmd" ∨ k.name = some "cmd_r" then
    { s with winPressed := false }
  else s

/-- `Recorder.stop` (recorder.py:323-359): an early return when not
recording; otherwise set the stopping flag, clear the recording flag, set
the stop event and flush any pending typing. -/
def stopFn (s : RecState) : RecState :=
  if s.recording = false then s
  else
    flushTypingState
      { s with stopping := true, recording := false, stopEventSet := true }

/-- One firing of `Recorder._flush_checker` (recorder.py:718-727) lifted
to the recorder state: the loop runs only while the stop event is unset. -/
def flushCheckerState (s : RecState) (now : Nat) : RecState :=
  if s.stopEventSet then s
  else
    { s with typing := (flushCheckerFire s.typing now).1,
             steps := s.steps ++ (flushCheckerFire s.typing now).2.toList }

/-- Attributes of an accessibility node read by `_refine_element`
(`element_info.name`, `element_info.control_type`; either read may yield
nothing). -/
structure NodeInfo where
  name : Option String
  controlType : Option String
deriving DecidableEq, Repr

/-- An accessibility node together with its ancestor chain.  `leaf`
means the parent query yields no further node (falsy parent, missing
handle, same handle as the child, or an exception); `elemInfo = none`
models a node whose `element_info` attribute is unavailable. -/
inductive UINode where
  | leaf (elemInfo : Option NodeInfo)
  | node (elemInfo : Option NodeInfo) (parent : UINode)
deriving DecidableEq, Repr

/-- The `element_info` read. -/
def UINode.elemInfo : UINode → Option NodeInfo
  | .leaf i => i
  | .node i _ => i

/-- The guarded parent query (`parent and parent.handle != current.handle`
with all failures mapped to `none`). -/
def UINode.parentNode : UINode → Option UINode
  | .leaf _ => none
  | .node _ p => some p

/-- `MAX_PARENT_WALK_DEPTH = 5` (recorder.py:203). -/
def MAX_PARENT_WALK_DEPTH : Nat := 5

/-- `generic_types = {"Pane", "Custom", "Group", "Window"}`
(recorder.py:978). -/
def genericTypes : List String := ["Pane", "Custom", "Group", "Window"]

/-- The acceptance test of `_refine_element` (recorder.py:1010): truthy
name, truthy control type, control type not generic. -/
def isMeaningful (i : NodeInfo) : Bool :=
  match i.name, i.controlType with
  | some n, some ct => (n != "") && (ct != "") && !(genericTypes.contains ct)
  | _, _ => false

/-- Whether a node passes the acceptance test of `_refine_element`. -/
def nodeMeaningful (n : UINode) : Bool :=
  match n.elemInfo with
  | some i => isMeaningful i
  | none => false

/-- The bounded ancestor walk of `_refine_element`
(recorder.py:982-1035): each iteration examines the current node,
returns it when meaningful, and otherwise advances to the parent or
gives up when the parent query fails. -/
def refineGo : UINode → Nat → Option UINode
  | _, 0 => none
  | cur, d + 1 =>
      match cur.elemInfo with
      | none =>
          match cur.parentNode with
          | some p => refineGo p d
          | none => none
      | some i =>
          if isMeaningful i then some cur
          else
            match cur.parentNode with
            | some p => refineGo p d
            | none => none

/-- `Recorder._refine_element` (recorder.py:963-1038): the bounded walk,
falling back to the ORIGINAL input element when no meaningful node is
found. -/
def refineElement (element : UINode) : UINode :=
  match refineGo element MAX_PARENT_WALK_DEPTH with
  | some n => n
  | none => element

/-- The node itself followed by its ancestors, nearest first. -/
def ancestorsOf : UINode → List UINode
  | .leaf i => [UINode.leaf i]
  | .node i p => UINode.node i p :: ancestorsOf p

/-- Modelled from the spec: the Element Resolver of `spec.md §4.2`, whose
walk "stops and returns the last node visited if the chain is exhausted,
the root is reached, or a parent query fails" — the behaviour the claim
ascribes to `_refine_element`. -/
def refineElementSpecModel : UINode → Nat → UINode
  | cur, 0 => cur
  | cur, d + 1 =>
      if nodeMeaningful cur then cur
      else
        match cur.parentNode with
        | some p => refineElementSpecModel p d
        | none => cur

/-- Feeding one character into the typing state machine while folding a
whole sequence: the accumulator carries the typing state and the steps
emitted so far. -/
def typeSeqAux (k : String) (now : Nat) (acc : TypingState × List Step)
    (c : String) : TypingState × List Step :=
  let (ts', e) := handleTyping acc.1 k c now
  (ts', acc.2 ++ e.toList)

/-- A sequence of characters typed into the element `k`, processed by
`_handle_typing` in arrival order. -/
def typeSeq (ts : TypingState) (k : String) (cs : List String) (now : Nat) :
    TypingState × List Step :=
  cs.foldl (typeSeqAux k now) (ts, [])

/-! ### Association-list lemmas -/

theorem alistLookup_isSome_of_mem {m : ElementMap} {k : String}
    (h : k ∈ elementKeys m) : ∃ v, alistLookup m k = some v := by
  induction m with
  | nil => simp [elementKeys] at h
  | cons kv rest ih =>
      obtain ⟨k1, v1⟩ := kv
      by_cases hk : k1 = k
      · exact ⟨v1, by simp [alistLookup, hk]⟩
      · have hm : k ∈ elementKeys rest := by
          simp only [elementKeys, List.map_cons, List.mem_cons] at h
          rcases h with h | h
          · exact absurd h.symm hk
          · simpa [elementKeys] using h
        rcases ih hm with ⟨v, hv⟩
        exact ⟨v, by simp [alistLookup, hk, hv]⟩

theorem alistLookup_alistSet_ne {m : ElementMap} {k k' : String}
    {v : ElementSpec} (h : k' ≠ k) :
    alistLookup (alistSet m k v) k' = alistLookup m k' := by
  have hne : ¬ (k = k') := fun hh => h hh.symm
  induction m with
  | nil => simp [alistSet, alistLookup, hne]
  | cons kv rest ih =>
      obtain ⟨k1, v1⟩ := kv
      by_cases hk : k1 = k
      · subst hk
        simp [alistSet, alistLookup, hne]
      · simp [alistSet, alistLookup, hk, ih]

theorem mem_keys_alistSet_self {m : ElementMap} {k : String}
    {v : ElementSpec} : k ∈ elementKeys (alistSet m k v) := by
  induction m with
  | nil => simp [alistSet, elementKeys]
  | cons kv rest ih =>
      obtain ⟨k1, v1⟩ := kv
      by_cases hk : k1 = k
      · simp [alistSet, elementKeys, hk]
      · simp only [alistSet, hk, if_false, elementKeys, List.map_cons,
          List.mem_cons]
        exact Or.inr ih

theorem mem_keys_alistSet_mono {m : ElementMap} {k k' : String}
    {v : ElementSpec} (h : k' ∈ elementKeys m) :
    k' ∈ elementKeys (alistSet m k v) := by
  induction m with
  | nil => simp [elementKeys] at h
  | cons kv rest ih =>
      obtain ⟨k1, v1⟩ := kv
      simp only [elementKeys, List.map_cons, List.mem_cons] at h
      by_cases hk : k1 = k
      · subst hk
        have hgoal : elementKeys (alistSet ((k1, v1) :: rest) k1 v)
            = k1 :: elementKeys rest := by
          simp [alistSet, elementKeys]
        rw [hgoal, List.mem_cons]
        exact h
      · rcases h with h | h
        · simp [alistSet, hk, elementKeys, h]
        · have h2 : k' ∈ elementKeys rest := h
          simp only [alistSet, if_neg hk, elementKeys, List.map_cons,
            List.mem_cons]
          exact Or.inr (ih h2)

/-! ### Lemmas about the `_ensure_element` lookup loop -/

theorem findMatch_mem {cands : List Locator} {m : ElementMap} {k : String}
    (h : findMatch cands m = some k) : k ∈ elementKeys m := by
  induction m with
  | nil => simp [findMatch] at h
  | cons kv rest ih =>
      obtain ⟨k1, v1⟩ := kv
      by_cases hm : locHeadMatches cands v1.locators
      · simp only [findMatch, hm, if_true, Option.some.injEq] at h
        simp [elementKeys, h]
      · simp only [findMatch, hm, if_false] at h
        simp only [elementKeys, List.map_cons, List.mem_cons]
        exact Or.inr (ih h)

theorem locHeadMatches_congr {cands1 cands2 : List Locator}
    (h : cands1.head? = cands2.head?) (locs : List Locator) :
    locHeadMatches cands1 locs = locHeadMatches cands2 locs := by
  cases locs with
  | nil => cases cands1 <;> cases cands2 <;> simp [locHeadMatches]
  | cons l ls =>
      cases cands1 with
      | nil => cases cands2 with
          | nil => rfl
          | cons c cs => simp [List.head?] at h
      | cons c cs =>
          cases cands2 with
          | nil => simp [List.head?] at h
          | cons c' cs' =>
              simp only [List.head?, Option.some.injEq] at h
              simp [locHeadMatches, h]

theorem findMatch_congr {cands1 cands2 : List Locator}
    (h : cands1.head? = cands2.head?) (m : ElementMap) :
    findMatch cands1 m = findMatch cands2 m := by
  induction m with
  | nil => rfl
  | cons kv rest ih =>
      obtain ⟨k1, v1⟩ := kv
      simp only [findMatch, locHeadMatches_congr h v1.locators, ih]

theorem findMatch_alistSet_match {cands : List Locator} {m : ElementMap}
    {k : String} {v : ElementSpec} (hnone : findMatch cands m = none)
    (hmatch : locHeadMatches cands v.locators = true) :
    findMatch cands (alistSet m k v) = some k := by
  induction m with
  | nil => simp [alistSet, findMatch, hmatch]
  | cons kv rest ih =>
      obtain ⟨k1, v1⟩ := kv
      by_cases hm : locHeadMatches cands v1.locators
      · simp [findMatch, hm] at hnone
      · simp only [findMatch, hm, if_false] at hnone
        by_cases hk : k1 = k
        · simp [alistSet, hk, findMatch, hmatch]
        · simp [alistSet, hk, findMatch, hm, ih hnone]

/-! ### Lemmas about `_ensure_element` -/

theorem ensureElement_key_mem (mkCands : ElementInfo → List Locator)
    (normKey : String → String) (win st : String)
    (cache : ElementMap) (info : ElementInfo) :
    (ensureElement mkCands normKey win st cache info).1 ∈
      elementKeys (ensureElement mkCands normKey win st cache info).2 := by
  unfold ensureElement
  cases hfm : findMatch (effCandidates mkCands info) cache with
  | some k =>
      simp only [hfm]
      exact findMatch_mem hfm
  | none =>
      simp only [hfm]
      exact mem_keys_alistSet_self

theorem ensureElement_keys_mono (mkCands : ElementInfo → List Locator)
    (normKey : String → String) (win st : String)
    (cache : ElementMap) (info : ElementInfo) {k : String}
    (h : k ∈ elementKeys cache) :
    k ∈ elementKeys (ensureElement mkCands normKey win st cache info).2 := by
  unfold ensureElement
  cases hfm : findMatch (effCandidates mkCands info) cache with
  | some k' =>
      simp only [hfm]
      exact h
  | none =>
      simp only [hfm]
      exact mem_keys_alistSet_mono h

/-! ### Lemmas about the typing-span flush -/

theorem flushTypingUnsafe_empty {ts : TypingState} (h : ts.buffer = []) :
    flushTypingUnsafe ts = (ts, none) := by
  unfold flushTypingUnsafe
  cases ts.key with
  | none => rfl
  | some k => simp [h]

theorem flushTypingUnsafe_reentrant (ts : TypingState) :
    flushTypingUnsafe (flushTypingUnsafe ts).1 =
      ((flushTypingUnsafe ts).1, none) := by
  unfold flushTypingUnsafe
  cases hk : ts.key with
  | none => simp [hk]
  | some k =>
      by_cases hb : ts.buffer = [] ∨ k = ""
      · simp [hk, hb]
      · simp [hk, hb]

theorem flushTypingUnsafe_emit {ts : TypingState} {stp : Step}
    (h : (flushTypingUnsafe ts).2 = some stp) :
    ∃ k, ts.key = some k ∧ stp = Step.type k (String.join ts.buffer) := by
  unfold flushTypingUnsafe at h
  cases hk : ts.key with
  | none => simp [hk] at h
  | some k =>
      by_cases hb : ts.buffer = [] ∨ k = ""
      · simp [hk, hb] at h
      · simp only [hk, hb, if_false] at h
        exact ⟨k, rfl, (Option.some.injEq _ _ ▸ h).symm⟩

theorem flushTypingUnsafe_key {ts : TypingState} {k : String}
    (h : (flushTypingUnsafe ts).1.key = some k) : ts.key = some k := by
  unfold flushTypingUnsafe at h
  cases hk : ts.key with
  | none => simp [hk] at h
  | some k' =>
      by_cases hb : ts.buffer = [] ∨ k' = ""
      · simp [hb, hk] at h
        simp [h]
      · simp only [hk] at h
        rw [if_neg hb] at h
        simp at h

theorem flushTypingUnsafe_full {ts : TypingState} {k : String}
    (hk : ts.key = some k) (hne : k ≠ "") (hb : ts.buffer ≠ []) :
    flushTypingUnsafe ts =
      ({ ts with key := none, buffer := [] },
       some (Step.type k (String.join ts.buffer))) := by
  unfold flushTypingUnsafe
  rw [hk]
  simp [hb, hne]

theorem handleTyping_of_empty {ts : TypingState} (h : ts.buffer = [])
    (k c : String) (now : Nat) :
    handleTyping ts k c now =
      ({ key := some k, buffer := [c], lastAction := now }, none) := by
  unfold handleTyping
  cases hk : ts.key with
  | none => simp [hk, h]
  | some k' =>
      by_cases hf : (k' != "") && (k' != k)
      · simp [hk, hf, flushTypingUnsafe_empty h, h]
      · simp [hk, hf, h]

theorem handleTyping_same_key {ts : TypingState} {k : String}
    (hk : ts.key = some k) (c : String) (now : Nat) :
    handleTyping ts k c now =
      ({ key := some k, buffer := ts.buffer ++ [c], lastAction := now },
       none) := by
  unfold handleTyping
  rw [hk]
  simp

theorem typeSeq_loop {k : String} {now : Nat} :
    ∀ (cs : List String) (ts : TypingState) (acc : List Step),
      ts.key = some k →
      (cs.foldl (typeSeqAux k now) (ts, acc)).1.key = some k ∧
      (cs.foldl (typeSeqAux k now) (ts, acc)).1.buffer = ts.buffer ++ cs ∧
      (cs.foldl (typeSeqAux k now) (ts, acc)).2 = acc := by
  intro cs
  induction cs with
  | nil => intro ts acc h; simp [h]
  | cons c cs ih =>
      intro ts acc h
      have hstep : typeSeqAux k now (ts, acc) c =
          ({ key := some k, buffer := ts.buffer ++ [c], lastAction := now },
           acc) := by
        simp [typeSeqAux, handleTyping_same_key h]
      rw [List.foldl_cons, hstep]
      rcases ih ⟨some k, ts.buffer ++ [c], now⟩ acc rfl with ⟨h1, h2, h3⟩
      refine ⟨h1, ?_, h3⟩
      rw [h2]
      simp

/-! ### Claim C1: Type-step text is the exact concatenation of the
buffered characters -/

/-- C1: for every sequence of characters typed into one element between
two flush boundaries (the span starts from an empty buffer), the flush
emits exactly one `type` step whose text is the concatenation of the
characters in arrival order, targeting the element key current at
buffering time; no step is emitted while buffering; and a flush with an
empty buffer emits no step. -/
theorem c1_type_step_text_concatenation
    (ts : TypingState) (k : String) (cs : List String) (now : Nat)
    (hbuf : ts.buffer = []) (hk : k ≠ "") (hcs : cs ≠ []) :
    (typeSeq ts k cs now).2 = [] ∧
    (flushTypingUnsafe (typeSeq ts k cs now).1).2
      = some (Step.type k (String.join cs)) ∧
    (flushTypingUnsafe ts).2 = none := by
  obtain ⟨c, cs', rfl⟩ := List.exists_cons_of_ne_nil hcs
  have hstep : typeSeqAux k now (ts, []) c =
      (⟨some k, [c], now⟩, []) := by
    simp [typeSeqAux, handleTyping_of_empty hbuf]
  have heq : typeSeq ts k (c :: cs') now
      = cs'.foldl (typeSeqAux k now) (⟨some k, [c], now⟩, []) := by
    rw [typeSeq, List.foldl_cons, hstep]
  rcases typeSeq_loop cs' ⟨some k, [c], now⟩ [] rfl with ⟨h1, h2, h3⟩
  rw [heq]
  refine ⟨h3, ?_, by rw [flushTypingUnsafe_empty hbuf]⟩
  have hb2 : (cs'.foldl (typeSeqAux k now) (⟨some k, [c], now⟩, [])).1.buffer
      ≠ [] := by
    rw [h2]; simp
  rw [flushTypingUnsafe_full h1 hk hb2, h2]
  simp

/-- Witness for C1 at a concrete input: typing `"a"` then `"b"` into
element `"E"` from a flushed span, then flushing, emits exactly the step
`type "E" "ab"`. -/
theorem c1_witness :
    (⟨none, [], 0⟩ : TypingState).buffer = [] ∧ ("E" : String) ≠ "" ∧
    (["a", "b"] : List String) ≠ [] ∧
    (typeSeq ⟨none, [], 0⟩ "E" ["a", "b"] 5).2 = [] ∧
    (flushTypingUnsafe (typeSeq ⟨none, [], 0⟩ "E" ["a", "b"] 5).1).2
      = some (Step.type "E" (String.join ["a", "b"])) ∧
    (flushTypingUnsafe (⟨none, [], 0⟩ : TypingState)).2 = none := by
  have h := c1_type_step_text_concatenation ⟨none, [], 0⟩ "E" ["a", "b"] 5
    rfl (by decide) (by decide)
  exact ⟨rfl, by decide, by decide, h.1, h.2.1, h.2.2⟩


/-! ### State-level flush lemmas -/

theorem flushTypingState_empty {s : RecState} (h : s.typing.buffer = []) :
    flushTypingState s = s := by
  unfold flushTypingState
  rw [flushTypingUnsafe_empty h]
  simp

theorem flushTypingState_full {s : RecState} {e : String}
    (hkey : s.typing.key = some e) (hne : e ≠ "")
    (hbuf : s.typing.buffer ≠ []) :
    flushTypingState s =
      { s with typing := { s.typing with key := none, buffer := [] },
               steps := s.steps ++
                 [Step.type e (String.join s.typing.buffer)] } := by
  unfold flushTypingState
  rw [flushTypingUnsafe_full hkey hne hbuf]
  simp

/-! ### Claim C2: a click flushes pending typing strictly before its own
Click step -/

/-- C2: for every mouse press processed while recording, the pending
typing span is flushed first, so the emitted steps extend the step list
with the pending `type` step immediately followed by the `click` step. -/
theorem c2_click_flushes_typing_before_click
    (mkCands : ElementInfo → List Locator) (normKey : String → String)
    (win st : String) (oracle : Nat → Option ElementInfo) (now : Nat)
    (s : RecState) (info : ElementInfo) (e : String)
    (hrec : s.recording = true) (hstop : s.stopping = false)
    (hkey : s.typing.key = some e) (hne : e ≠ "")
    (hbuf : s.typing.buffer ≠ [])
    (hcap : firstCapture oracle 3 = some info) :
    (onMouseClick mkCands normKey win st oracle now true s).steps =
      s.steps ++
        [Step.type e (String.join s.typing.buffer),
         Step.click (ensureElement mkCands normKey win st s.cache info).1] := by
  unfold onMouseClick
  rw [if_neg (by simp [hrec, hstop]), hcap]
  simp only [flushTypingState_full hkey hne hbuf]
  simp

/-- A trivial stand-in for the opaque `_make_locator_candidates`
(only consulted when an `ElementInfo` carries no candidates). -/
def mkCandsNone : ElementInfo → List Locator := fun _ => []

/-- A trivial stand-in for the opaque `_normalize_key`. -/
def normKeyId : String → String := id

/-- A concrete captured element resolving to the cached key `E2`. -/
def c2info : ElementInfo :=
  ⟨some "target", none, some "Button", [Locator.byName "E2loc"]⟩

/-- A capture oracle that succeeds immediately with `c2info`. -/
def c2oracle : Nat → Option ElementInfo := fun _ => some c2info

/-- A recording state with the span `"ab"` pending on element `E` and the
elements `E` and `E2` cached. -/
def c2state : RecState :=
  ⟨true, false, false, false, false, false, false, false, [],
   [("E", ⟨"main", some "default", [Locator.byName "Eloc"]⟩),
    ("E2", ⟨"main", some "default", [Locator.byName "E2loc"]⟩)],
   ⟨some "E", ["a", "b"], 0⟩, 0⟩

/-- Witness for C2: buffer `"ab"` pending on element `E`, then a click
resolving to an element cached as `E2`, yields
`[type E "ab", click E2]`. -/
theorem c2_witness :
    c2state.recording = true ∧ c2state.stopping = false ∧
    c2state.typing.key = some "E" ∧ ("E" : String) ≠ "" ∧
    c2state.typing.buffer ≠ [] ∧
    firstCapture c2oracle 3 = some c2info ∧
    (onMouseClick mkCandsNone normKeyId "main" "default" c2oracle 9 true
        c2state).steps =
      [Step.type "E" "ab", Step.click "E2"] := by
  refine ⟨rfl, rfl, rfl, by decide, by decide, rfl, ?_⟩
  have h := c2_click_flushes_typing_before_click mkCandsNone normKeyId
    "main" "default" c2oracle 9 c2state c2info "E" rfl rfl rfl
    (by decide) (by decide) rfl
  rw [h]
  decide

/-! ### Claim C3: the stop-requested flag and the callbacks -/

/-- A concrete captured element for the C3 scenario. -/
def c3info : ElementInfo :=
  ⟨some "login", none, some "Button", [Locator.byName "login"]⟩

/-- A capture oracle that succeeds immediately. -/
def c3oracle : Nat → Option ElementInfo := fun _ => some c3info

/-- A state in which `_stop_requested` is set but `_stopping` is not yet
(the two flags are assigned one after the other by the stop hotkey
thread, recorder.py:508-509, so this state occurs between the two
assignments). -/
def c3state : RecState :=
  ⟨true, false, true, false, false, false, false, false, [], [],
   ⟨none, [], 0⟩, 0⟩

/-- C3 counterexample: with `_stop_requested = true` but the stop's
second flag not yet written, `_on_mouse_click` — whose guard
(recorder.py:553) tests only `_recording`/`pressed`/`_stopping` and never
`_stop_requested` — still appends a `click` step, so the claim that the
stop-requested flag is checked at the top of every callback and that no
event delivered after it is set reaches the step list is false. -/
theorem c3_counterexample :
    c3state.stopRequested = true ∧
    (onMouseClick mkCandsNone normKeyId "main" "default" c3oracle 0 true
        c3state).steps ≠ c3state.steps := by
  exact ⟨rfl, by decide⟩

/-- C3 (amended): `_on_key_press` short-circuits on the stop-requested
flag alone; `_on_mouse_click` short-circuits on the stopping flag; since
every stop path sets both flags, once a stop request is fully recorded
(both flags written) neither callback mutates the state, so no event
delivered after that point is reflected in the step list. -/
theorem c3_amended_stop_flags_short_circuit
    (mkCands : ElementInfo → List Locator) (normKey : String → String)
    (win st : String) (fo : Option ElementInfo)
    (oracle : Nat → Option ElementInfo) (now now2 : Nat) (key : KeyEvent)
    (pressed : Bool) (s : RecState)
    (h1 : s.stopRequested = true) (h2 : s.stopping = true) :
    onKeyPress mkCands normKey win st fo now key s = s ∧
    onMouseClick mkCands normKey win st oracle now2 pressed s = s := by
  constructor
  · unfold onKeyPress
    simp [h1]
  · unfold onMouseClick
    rw [if_pos (Or.inr (Or.inr (by simp [h2])))]

/-- A state after a stop request has been fully recorded: both stop
flags set. -/
def c3stoppedState : RecState :=
  ⟨true, true, true, false, false, false, false, false,
   [Step.click "login"], [("login", ⟨"main", some "default",
     [Locator.byName "login"]⟩)], ⟨some "login", ["x"], 0⟩, 0⟩

/-- Witness for C3's amended theorem at a concrete input: with both stop
flags set, the key and mouse callbacks leave the state untouched. -/
theorem c3_amended_witness :
    c3stoppedState.stopRequested = true ∧ c3stoppedState.stopping = true ∧
    onKeyPress mkCandsNone normKeyId "main" "default" (some c3info) 1
      ⟨some "a", none⟩ c3stoppedState = c3stoppedState ∧
    onMouseClick mkCandsNone normKeyId "main" "default" c3oracle 2 true
      c3stoppedState = c3stoppedState := by
  have h := c3_amended_stop_flags_short_circuit mkCandsNone normKeyId
    "main" "default" (some c3info) c3oracle 1 2 ⟨some "a", none⟩ true
    c3stoppedState rfl rfl
  exact ⟨rfl, rfl, h.1, h.2⟩

/-! ### Claim C9: failed click resolution is retried three times, then
dropped with a warning -/

/-- C9: when recording and not stopping, with no typing pending, a mouse
press whose element capture fails on each of the three attempts (the
oracle is constrained only at attempts 0, 1, 2 — the resolution is
bounded) leaves the state unchanged except for one operator warning: no
step is appended, nothing is raised, and the session keeps recording. -/
theorem c9_failed_resolution_drops_event
    (mkCands : ElementInfo → List Locator) (normKey : String → String)
    (win st : String) (oracle : Nat → Option ElementInfo) (now : Nat)
    (s : RecState)
    (hrec : s.recording = true) (hstop : s.stopping = false)
    (hbuf : s.typing.buffer = [])
    (hfail : ∀ i, i < 3 → oracle i = none) :
    onMouseClick mkCands normKey win st oracle now true s
      = { s with warnings := s.warnings + 1 } := by
  have hcap : firstCapture oracle 3 = none := by
    have h0 := hfail 0 (by omega)
    have h1 := hfail 1 (by omega)
    have h2 := hfail 2 (by omega)
    simp [firstCapture, h0, h1, h2]
  unfold onMouseClick
  rw [if_neg (by simp [hrec, hstop]), hcap]
  rw [flushTypingState_empty hbuf]

/-- A capture oracle that fails on the three attempts the recorder makes
and would succeed afterwards (showing the retry bound). -/
def c9oracle : Nat → Option ElementInfo :=
  fun i => if i < 3 then none else some c3info

/-- A quiescent recording state for the C9 scenario. -/
def c9state : RecState :=
  ⟨true, false, false, false, false, false, false, false,
   [Step.click "login"], [("login", ⟨"main", some "default",
     [Locator.byName "login"]⟩)], ⟨none, [], 0⟩, 2⟩

/-- Witness for C9 at a concrete input: three failed captures drop the
click, append no step, and add exactly one warning. -/
theorem c9_witness :
    c9state.recording = true ∧ c9state.stopping = false ∧
    c9state.typing.buffer = [] ∧ (∀ i, i < 3 → c9oracle i = none) ∧
    onMouseClick mkCandsNone normKeyId "main" "default" c9oracle 7 true
      c9state = { c9state with warnings := c9state.warnings + 1 } := by
  refine ⟨rfl, rfl, rfl, fun i hi => by simp [c9oracle, hi], ?_⟩
  exact c9_failed_resolution_drops_event mkCandsNone normKeyId "main"
    "default" c9oracle 7 c9state rfl rfl rfl
    (fun i hi => by simp [c9oracle, hi])

/-! ### Claim C10: stop is idempotent -/

/-- C10: calling `stop()` when the recorder is not recording returns
immediately, flushing nothing and leaving the whole state (step list,
cache, typing span) untouched; consequently a second `stop()` after a
first one is always a no-op and can never double-emit a pending `type`
step. -/
theorem c10_stop_idempotent (s : RecState) :
    (s.recording = false → stopFn s = s) ∧
    stopFn (stopFn s) = stopFn s := by
  have hnotrec : ∀ t : RecState, t.recording = false → stopFn t = t := by
    intro t ht
    unfold stopFn
    rw [if_pos ht]
  refine ⟨hnotrec s, ?_⟩
  cases hr : s.recording with
  | false =>
      rw [hnotrec s hr]
      exact hnotrec s hr
  | true =>
      apply hnotrec
      unfold stopFn
      rw [if_neg (by simp [hr])]
      rfl

/-- A stopped state with a stale pending span, showing that a second
stop does not flush it. -/
def c10state : RecState :=
  ⟨false, true, true, true, false, false, false, false,
   [Step.type "E" "ab"], [("E", ⟨"main", some "default",
     [Locator.byName "Eloc"]⟩)], ⟨some "E", ["x"], 0⟩, 0⟩

/-- Witness for C10 at a concrete input: `stop()` on a non-recording
state is the identity, and `stop` composed with itself equals one
`stop`. -/
theorem c10_witness :
    c10state.recording = false ∧ stopFn c10state = c10state ∧
    stopFn (stopFn c10state) = stopFn c10state :=
  ⟨rfl, (c10_stop_idempotent c10state).1 rfl,
   (c10_stop_idempotent c10state).2⟩

/-! ### Claim C4: the element-map merge and non-destructiveness -/

theorem mem_keys_mergeOne {eb : ElementMap} {st k' : String}
    {kv : String × ElementSpec} (h : k' ∈ elementKeys eb) :
    k' ∈ elementKeys (mergeOne st eb kv) := by
  unfold mergeOne
  cases alistLookup eb kv.1 with
  | none => exact mem_keys_alistSet_mono h
  | some e =>
      by_cases he : e.whenState = some st
      · simpa [he] using h
      · simp only [he, if_false]
        exact mem_keys_alistSet_mono h

theorem mergeOne_lookup_preserved {eb : ElementMap} {st c k' : String}
    {sp : ElementSpec} (hne : k' ≠ c ++ "__" ++ st)
    (hk : k' ∈ elementKeys eb) :
    alistLookup (mergeOne st eb (c, sp)) k' = alistLookup eb k' := by
  unfold mergeOne
  cases hl : alistLookup eb (c, sp).1 with
  | none =>
      have hcne : k' ≠ c := by
        intro hEq
        rcases alistLookup_isSome_of_mem hk with ⟨v, hv⟩
        rw [hEq] at hv
        rw [hv] at hl
        exact Option.noConfusion hl
      exact alistLookup_alistSet_ne hcne
  | some e =>
      by_cases he : e.whenState = some st
      · simp [he]
      · simp only [he, if_false]
        exact alistLookup_alistSet_ne hne

theorem mergeElements_lookup_preserved :
    ∀ (cache : ElementMap) (eb : ElementMap) (st k' : String),
      k' ∈ elementKeys eb →
      (∀ c sp, (c, sp) ∈ cache → k' ≠ c ++ "__" ++ st) →
      alistLookup (mergeElements eb cache st) k' = alistLookup eb k' := by
  intro cache
  induction cache with
  | nil => intro eb st k' hk hc; rfl
  | cons kv rest ih =>
      intro eb st k' hk hc
      obtain ⟨c, sp⟩ := kv
      have hstep : alistLookup (mergeOne st eb (c, sp)) k' = alistLookup eb k' :=
        mergeOne_lookup_preserved (hc c sp (List.mem_cons_self _ _)) hk
      have hk2 : k' ∈ elementKeys (mergeOne st eb (c, sp)) :=
        mem_keys_mergeOne hk
      have hrest := ih (mergeOne st eb (c, sp)) st k' hk2
        (fun c2 sp2 hm => hc c2 sp2 (List.mem_cons_of_mem _ hm))
      calc alistLookup (mergeElements eb ((c, sp) :: rest) st) k'
          = alistLookup (mergeElements (mergeOne st eb (c, sp)) rest st) k' :=
            rfl
        _ = alistLookup (mergeOne st eb (c, sp)) k' := hrest
        _ = alistLookup eb k' := hstep

/-- The persisted `elements` block of the C4 counterexample: the key
`foo` was recorded under state `s1`, and a derived entry `foo__default`
already exists (for example from an earlier session or a manual edit). -/
def c4eb : ElementMap :=
  [("foo", ⟨"main", some "s1", [Locator.byName "x"]⟩),
   ("foo__default", ⟨"main", some "s1", [Locator.byName "old"]⟩)]

/-- A session cache holding a new `foo` recorded under state
`default`. -/
def c4cache : ElementMap :=
  [("foo", ⟨"main", some "default", [Locator.byName "new"]⟩)]

/-- C4 counterexample: merging the session's `foo` (state `default`)
into a document whose `foo` has state `s1` writes the derived key
`foo__default` (recorder.py:409-410) and thereby OVERWRITES the existing
`foo__default` entry, so the claim that the merge never alters any
existing entry is false. -/
theorem c4_counterexample :
    alistLookup c4eb "foo__default"
      = some ⟨"main", some "s1", [Locator.byName "old"]⟩ ∧
    alistLookup (mergeElements c4eb c4cache "default") "foo__default"
      ≠ alistLookup c4eb "foo__default" := by
  exact ⟨rfl, by decide⟩

/-- C4 (amended): the merge inserts an absent key, leaves a same-state
entry untouched and writes a different-state entry under the derived key
`key__state`; it never alters any persisted entry whose key is not such
a derived key `c__state` for a session-cache key `c` — an existing entry
under a derived key, however, can be overwritten. -/
theorem c4_merge_nondestructive_amended
    (eb cache : ElementMap) (st k' : String)
    (h1 : k' ∈ elementKeys eb)
    (h2 : ∀ c sp, (c, sp) ∈ cache → k' ≠ c ++ "__" ++ st) :
    alistLookup (mergeElements eb cache st) k' = alistLookup eb k' ∧
    (∀ (k : String) (s : ElementSpec),
      mergeElements eb [(k, s)] st =
        match alistLookup eb k with
        | none => alistSet eb k s
        | some e =>
            if e.whenState = some st then eb
            else alistSet eb (k ++ "__" ++ st) s) := by
  refine ⟨mergeElements_lookup_preserved cache eb st k' h1 h2, ?_⟩
  intro k s
  rfl

/-- A session cache for the C4 witness, disjoint from the persisted
keys. -/
def c4wcache : ElementMap :=
  [("bar", ⟨"main", some "default", [Locator.byName "b"]⟩)]

/-- Witness for C4's amended theorem at a concrete input: merging a
fresh `bar` leaves the persisted `foo` entry untouched. -/
theorem c4_witness :
    ("foo" : String) ∈ elementKeys c4eb ∧
    alistLookup (mergeElements c4eb c4wcache "default") "foo"
      = alistLookup c4eb "foo" := by
  have h := c4_merge_nondestructive_amended c4eb c4wcache "default" "foo"
    (by decide)
    (by
      intro c sp hm
      simp only [c4wcache, List.mem_singleton] at hm
      have hc : c = "bar" := congrArg Prod.fst hm
      rw [hc]
      decide)
  exact ⟨by decide, h.1⟩

/-! ### Claim C5: the element-refinement ancestor walk -/

/-- A node whose own attributes are generic (`Pane`) and whose single
ancestor exposes no attributes at all: the walk visits both and fails. -/
def c5ex : UINode :=
  .node (some ⟨some "a", some "Pane"⟩) (.leaf (some ⟨none, none⟩))

/-- C5 counterexample: on `c5ex` the walk is exhausted without an
acceptable node, and `_refine_element` returns the ORIGINAL input node
(recorder.py:1037-1038), not the last node visited (the parent), so the
claim's fallback clause is false. -/
theorem c5_counterexample :
    refineElement c5ex ≠ refineElementSpecModel c5ex MAX_PARENT_WALK_DEPTH ∧
    refineElement c5ex = c5ex := by
  exact ⟨by decide, by decide⟩

theorem refineGo_eq_find :
    ∀ (d : Nat) (n : UINode),
      refineGo n d = ((ancestorsOf n).take d).find? nodeMeaningful := by
  intro d
  induction d with
  | zero => intro n; simp [refineGo]
  | succ d ih =>
      intro n
      cases n with
      | leaf i =>
          cases i with
          | none =>
              simp [refineGo, ancestorsOf, UINode.elemInfo, UINode.parentNode,
                List.find?, nodeMeaningful]
          | some i0 =>
              by_cases hm : isMeaningful i0
              · simp [refineGo, ancestorsOf, UINode.elemInfo,
                  UINode.parentNode, List.find?, nodeMeaningful, hm]
              · simp [refineGo, ancestorsOf, UINode.elemInfo,
                  UINode.parentNode, List.find?, nodeMeaningful, hm]
      | node i p =>
          cases i with
          | none =>
              simp [refineGo, ancestorsOf, UINode.elemInfo, UINode.parentNode,
                List.find?, nodeMeaningful, ih]
          | some i0 =>
              by_cases hm : isMeaningful i0
              · simp [refineGo, ancestorsOf, UINode.elemInfo,
                  UINode.parentNode, List.find?, nodeMeaningful, hm]
              · simp [refineGo, ancestorsOf, UINode.elemInfo,
                  UINode.parentNode, List.find?, nodeMeaningful, hm, ih]

/-- C5 (amended): `_refine_element` examines at most
`MAX_PARENT_WALK_DEPTH = 5` nodes of the ancestor chain (the input and
up to four ancestors), returns the first one that has both a truthy name
and a truthy control type outside the denylist
`{Pane, Custom, Group, Window}`, and returns the ORIGINAL input node when
the bounded walk finds none (chain exhausted, root reached, or parent
query failed). -/
theorem c5_refine_first_meaningful_or_input (n : UINode) :
    refineElement n =
      ((((ancestorsOf n).take MAX_PARENT_WALK_DEPTH).find?
          nodeMeaningful).getD n) := by
  unfold refineElement
  rw [refineGo_eq_find]
  cases ((ancestorsOf n).take MAX_PARENT_WALK_DEPTH).find? nodeMeaningful with
  | none => rfl
  | some m => rfl

/-! ### Claim C6: the inactivity flush fires exactly once and flushing is
reentrant-safe -/

/-- C6: a typing span inactive for longer than the timeout is flushed by
the checker into exactly one `type` step; any further firing of the
checker on the flushed span emits nothing; and quite generally a flush
immediately after a flush is the identity with no emission (flush after
flush equals flush). -/
theorem c6_inactivity_flush_exactly_once
    (ts : TypingState) (k : String) (now now2 : Nat)
    (hk : ts.key = some k) (hne : k ≠ "") (hbuf : ts.buffer ≠ [])
    (hto : now - ts.lastAction > typingTimeout) :
    (flushCheckerFire ts now).2
      = some (Step.type k (String.join ts.buffer)) ∧
    (flushCheckerFire (flushCheckerFire ts now).1 now2).2 = none ∧
    (∀ ts2 : TypingState,
      flushTypingUnsafe (flushTypingUnsafe ts2).1
        = ((flushTypingUnsafe ts2).1, none)) := by
  have hfire : flushCheckerFire ts now =
      ({ ts with key := none, buffer := [] },
       some (Step.type k (String.join ts.buffer))) := by
    unfold flushCheckerFire
    rw [if_pos ⟨hbuf, hto⟩, flushTypingUnsafe_full hk hne hbuf]
  refine ⟨by rw [hfire], ?_, fun ts2 => flushTypingUnsafe_reentrant ts2⟩
  rw [hfire]
  unfold flushCheckerFire
  rw [if_neg (by simp)]

/-- Witness for C6 at a concrete input: a span `"hi"` on `E`, inactive
for 3 seconds, is flushed into `type E "hi"`; a second checker firing
afterwards emits nothing. -/
theorem c6_witness :
    (⟨some "E", ["h", "i"], 0⟩ : TypingState).key = some "E" ∧
    ("E" : String) ≠ "" ∧
    (⟨some "E", ["h", "i"], 0⟩ : TypingState).buffer ≠ [] ∧
    3000 - (⟨some "E", ["h", "i"], 0⟩ : TypingState).lastAction
      > typingTimeout ∧
    (flushCheckerFire ⟨some "E", ["h", "i"], 0⟩ 3000).2
      = some (Step.type "E" (String.join ["h", "i"])) ∧
    (flushCheckerFire (flushCheckerFire ⟨some "E", ["h", "i"], 0⟩ 3000).1
        3500).2 = none := by
  have h := c6_inactivity_flush_exactly_once ⟨some "E", ["h", "i"], 0⟩ "E"
    3000 3500 rfl (by decide) (by decide) (by decide)
  exact ⟨rfl, by decide, by decide, by decide, h.1, h.2.1⟩

/-! ### Claim C7: element-key assignment is idempotent within a
session -/

theorem locHeadMatches_of_heads {cands locs : List Locator} {l : Locator}
    (h1 : locs.head? = some l) (h2 : cands.head? = some l) :
    locHeadMatches cands locs = true := by
  cases locs with
  | nil => simp at h1
  | cons a as =>
      cases cands with
      | nil => simp at h2
      | cons b bs =>
          simp only [List.head?, Option.some.injEq] at h1 h2
          simp [locHeadMatches, h1, h2]

/-- C7: two calls to `_ensure_element` whose (effective) candidate lists
have equal first-ranked locators, the second run on the cache produced by
the first, return the same element key, and the second call leaves the
cache unchanged. -/
theorem c7_ensure_element_idempotent
    (mkCands : ElementInfo → List Locator) (normKey : String → String)
    (win st : String) (cache : ElementMap) (info1 info2 : ElementInfo)
    (hne : effCandidates mkCands info1 ≠ [])
    (hhd : (effCandidates mkCands info1).head?
      = (effCandidates mkCands info2).head?) :
    (ensureElement mkCands normKey win st
        (ensureElement mkCands normKey win st cache info1).2 info2).1
      = (ensureElement mkCands normKey win st cache info1).1 ∧
    (ensureElement mkCands normKey win st
        (ensureElement mkCands normKey win st cache info1).2 info2).2
      = (ensureElement mkCands normKey win st cache info1).2 := by
  obtain ⟨l0, c1, hc1⟩ := List.exists_cons_of_ne_nil hne
  cases hfm : findMatch (effCandidates mkCands info1) cache with
  | some k =>
      have h1 : ensureElement mkCands normKey win st cache info1
          = (k, cache) := by
        unfold ensureElement
        simp only [hfm]
      have hfm2 : findMatch (effCandidates mkCands info2) cache = some k := by
        rw [← findMatch_congr hhd, hfm]
      have h2 : ensureElement mkCands normKey win st cache info2
          = (k, cache) := by
        unfold ensureElement
        simp only [hfm2]
      rw [h1]
      exact ⟨by rw [h2], by rw [h2]⟩
  | none =>
      have h1 : ensureElement mkCands normKey win st cache info1
          = (freshKey (elementKeys cache)
               (normKey (pyOr info1.name (pyOr info1.autoId
                 (pyOr info1.controlType "element")))),
             alistSet cache
               (freshKey (elementKeys cache)
                 (normKey (pyOr info1.name (pyOr info1.autoId
                   (pyOr info1.controlType "element")))))
               ⟨win, some st, (effCandidates mkCands info1).take 3⟩) := by
        unfold ensureElement
        simp only [hfm]
      have hlocs : ((effCandidates mkCands info1).take 3).head? = some l0 := by
        rw [hc1]
        rfl
      have hcands2 : (effCandidates mkCands info2).head? = some l0 := by
        rw [← hhd, hc1]
        rfl
      have hl : locHeadMatches (effCandidates mkCands info2)
          ((effCandidates mkCands info1).take 3) = true :=
        locHeadMatches_of_heads hlocs hcands2
      have hfm2a : findMatch (effCandidates mkCands info2) cache = none := by
        rw [← findMatch_congr hhd, hfm]
      have hfm2 : findMatch (effCandidates mkCands info2)
          (alistSet cache
            (freshKey (elementKeys cache)
              (normKey (pyOr info1.name (pyOr info1.autoId
                (pyOr info1.controlType "element")))))
            ⟨win, some st, (effCandidates mkCands info1).take 3⟩)
          = some (freshKey (elementKeys cache)
              (normKey (pyOr info1.name (pyOr info1.autoId
                (pyOr info1.controlType "element"))))) :=
        findMatch_alistSet_match hfm2a hl
      have h2 : ensureElement mkCands normKey win st
          (alistSet cache
            (freshKey (elementKeys cache)
              (normKey (pyOr info1.name (pyOr info1.autoId
                (pyOr info1.controlType "element")))))
            ⟨win, some st, (effCandidates mkCands info1).take 3⟩) info2
          = (freshKey (elementKeys cache)
              (normKey (pyOr info1.name (pyOr info1.autoId
                (pyOr info1.controlType "element")))),
             alistSet cache
               (freshKey (elementKeys cache)
                 (normKey (pyOr info1.name (pyOr info1.autoId
                   (pyOr info1.controlType "element")))))
               ⟨win, some st, (effCandidates mkCands info1).take 3⟩) := by
        unfold ensureElement
        simp only [hfm2]
      rw [h1]
      exact ⟨by rw [h2], by rw [h2]⟩

/-- Witness for C7 at a concrete input: resolving the same captured
element twice in an empty session cache yields the key `login` both
times. -/
theorem c7_witness :
    effCandidates mkCandsNone c3info ≠ [] ∧
    (effCandidates mkCandsNone c3info).head?
      = (effCandidates mkCandsNone c3info).head? ∧
    (ensureElement mkCandsNone normKeyId "main" "default"
        (ensureElement mkCandsNone normKeyId "main" "default" [] c3info).2
        c3info).1
      = (ensureElement mkCandsNone normKeyId "main" "default" [] c3info).1 := by
  have h := c7_ensure_element_idempotent mkCandsNone normKeyId "main"
    "default" [] c3info c3info (by decide) rfl
  exact ⟨by decide, rfl, h.1⟩

/-! ### Claim C8: every emitted step references a cached element -/

/-- Every step in the list references only element keys present in the
session cache (`spec.md §3` invariant). -/
def stepsElemsCached (s : RecState) : Prop :=
  ∀ stp ∈ s.steps, ∀ k, stepElem stp = some k → k ∈ elementKeys s.cache

/-- The recorder invariant: all emitted steps reference cached element
keys, and so does the element key of the in-flight typing span (the key
a future `type` step would carry). -/
def recInvariant (s : RecState) : Prop :=
  stepsElemsCached s ∧
  ∀ k, s.typing.key = some k → k ∈ elementKeys s.cache

theorem recInvariant_congr {s t : RecState} (hsteps : t.steps = s.steps)
    (hcache : t.cache = s.cache) (htyping : t.typing = s.typing)
    (h : recInvariant s) : recInvariant t := by
  obtain ⟨h1, h2⟩ := h
  constructor
  · intro stp hstp k hk
    rw [hcache]
    exact h1 stp (hsteps ▸ hstp) k hk
  · intro k hk
    rw [hcache]
    exact h2 k (htyping ▸ hk)

theorem handleTyping_emit {ts : TypingState} {ek c : String} {now : Nat}
    {stp : Step} (h : (handleTyping ts ek c now).2 = some stp) :
    ∃ k', ts.key = some k' ∧ stp = Step.type k' (String.join ts.buffer) := by
  have hr : (handleTyping ts ek c now).2 =
      (if (match ts.key with
            | some k' => (k' != "") && (k' != ek)
            | none => false) = true
       then flushTypingUnsafe ts else (ts, none)).2 := rfl
  rw [hr] at h
  by_cases hf : (match ts.key with
      | some k' => (k' != "") && (k' != ek)
      | none => false) = true
  · rw [if_pos hf] at h
    exact flushTypingUnsafe_emit h
  · rw [if_neg hf] at h
    simp at h

theorem flushCheckerFire_emit {ts : TypingState} {now : Nat} {stp : Step}
    (h : (flushCheckerFire ts now).2 = some stp) :
    ∃ k', ts.key = some k' ∧ stp = Step.type k' (String.join ts.buffer) := by
  unfold flushCheckerFire at h
  by_cases hc : ts.buffer ≠ [] ∧ now - ts.lastAction > typingTimeout
  · rw [if_pos hc] at h
    exact flushTypingUnsafe_emit h
  · rw [if_neg hc] at h
    simp at h

theorem flushCheckerFire_key {ts : TypingState} {now : Nat} {k : String}
    (h : (flushCheckerFire ts now).1.key = some k) : ts.key = some k := by
  unfold flushCheckerFire at h
  by_cases hc : ts.buffer ≠ [] ∧ now - ts.lastAction > typingTimeout
  · rw [if_pos hc] at h
    exact flushTypingUnsafe_key h
  · rw [if_neg hc] at h
    exact h

theorem recInvariant_flushTypingState {s : RecState} (h : recInvariant s) :
    recInvariant (flushTypingState s) := by
  obtain ⟨h1, h2⟩ := h
  constructor
  · intro stp hstp k hk
    have hstp' : stp ∈ s.steps ++ (flushTypingUnsafe s.typing).2.toList :=
      hstp
    show k ∈ elementKeys s.cache
    rcases List.mem_append.1 hstp' with hm | hm
    · exact h1 stp hm k hk
    · cases he : (flushTypingUnsafe s.typing).2 with
      | none => rw [he] at hm; simp at hm
      | some stp2 =>
          rw [he] at hm
          simp only [Option.toList_some, List.mem_singleton] at hm
          subst hm
          obtain ⟨k2, hk2, hstp2⟩ := flushTypingUnsafe_emit he
          rw [hstp2] at hk
          simp only [stepElem, Option.some.injEq] at hk
          subst hk
          exact h2 k2 hk2
  · intro k hk
    have hk' : (flushTypingUnsafe s.typing).1.key = some k := hk
    show k ∈ elementKeys s.cache
    exact h2 k (flushTypingUnsafe_key hk')

theorem recInvariant_handleTypingState {s : RecState}
    (mkCands : ElementInfo → List Locator) (normKey : String → String)
    (win st : String) (fo : Option ElementInfo) (now : Nat) (c : String)
    (h : recInvariant s) :
    recInvariant (handleTypingState mkCands normKey win st fo now c s) := by
  cases fo with
  | none => exact h
  | some info =>
      obtain ⟨h1, h2⟩ := h
      constructor
      · intro stp hstp k hk
        have hstp' : stp ∈ s.steps ++
            (handleTyping s.typing
              (ensureElement mkCands normKey win st s.cache info).1 c
              now).2.toList := hstp
        show k ∈ elementKeys
          (ensureElement mkCands normKey win st s.cache info).2
        rcases List.mem_append.1 hstp' with hm | hm
        · exact ensureElement_keys_mono mkCands normKey win st s.cache info
            (h1 stp hm k hk)
        · cases he : (handleTyping s.typing
              (ensureElement mkCands normKey win st s.cache info).1 c
              now).2 with
          | none => rw [he] at hm; simp at hm
          | some stp2 =>
              rw [he] at hm
              simp only [Option.toList_some, List.mem_singleton] at hm
              subst hm
              obtain ⟨k2, hk2, hstp2⟩ := handleTyping_emit he
              rw [hstp2] at hk
              simp only [stepElem, Option.some.injEq] at hk
              subst hk
              exact ensureElement_keys_mono mkCands normKey win st s.cache
                info (h2 k2 hk2)
      · intro k hk
        have hkey : (handleTyping s.typing
            (ensureElement mkCands normKey win st s.cache info).1 c
            now).1.key
            = some (ensureElement mkCands normKey win st s.cache info).1 :=
          rfl
        have hk2 : some (ensureElement mkCands normKey win st s.cache
            info).1 = some k := by
          rw [← hkey]
          exact hk
        have hkeq : (ensureElement mkCands normKey win st s.cache info).1
            = k := Option.some.inj hk2
        show k ∈ elementKeys
          (ensureElement mkCands normKey win st s.cache info).2
        rw [← hkeq]
        exact ensureElement_key_mem mkCands normKey win st s.cache info

theorem recInvariant_keyPressCharPath {s : RecState}
    (mkCands : ElementInfo → List Locator) (normKey : String → String)
    (win st : String) (fo : Option ElementInfo) (now : Nat) (k : KeyEvent)
    (h : recInvariant s) :
    recInvariant (keyPressCharPath mkCands normKey win st fo now k s) := by
  unfold keyPressCharPath
  cases getChar k with
  | none => exact h
  | some c =>
      show recInvariant
        (if c ≠ "" ∧ ¬(s.ctrlPressed ∨ s.altPressed ∨ s.winPressed) then
          handleTypingState mkCands normKey win st fo now c s
        else s)
      by_cases hc : c ≠ "" ∧ ¬(s.ctrlPressed ∨ s.altPressed ∨ s.winPressed)
      · rw [if_pos hc]
        exact recInvariant_handleTypingState mkCands normKey win st fo now
          c h
      · rw [if_neg hc]
        exact h

theorem recInvariant_updateModsPress {s : RecState} (k : KeyEvent)
    (h : recInvariant s) : recInvariant (updateModsPress s k) := by
  unfold updateModsPress
  split_ifs <;> exact recInvariant_congr rfl rfl rfl h

theorem recInvariant_onKeyPressBody {s : RecState}
    (mkCands : ElementInfo → List Locator) (normKey : String → String)
    (win st : String) (fo : Option ElementInfo) (now : Nat) (k : KeyEvent)
    (h : recInvariant s) :
    recInvariant (onKeyPressBody mkCands normKey win st fo now k s) := by
  unfold onKeyPressBody
  by_cases hsup : s.ctrlPressed ∧ s.shiftPressed ∧
      ((k.name.getD "").toLower = "f12" ∨ (k.name.getD "").toLower = "end")
  · rw [if_pos hsup]
    exact h
  · rw [if_neg hsup]
    by_cases hmod : (s.ctrlPressed ∨ s.altPressed ∨ s.winPressed) ∧
        ¬isModifierKey k
    · rw [if_pos hmod]
      cases formatHotkey s k with
      | some hstr =>
          have hF := recInvariant_flushTypingState h
          obtain ⟨h1, h2⟩ := hF
          constructor
          · intro stp hstp kk hk
            have hstp' : stp ∈ (flushTypingState s).steps ++
                [Step.hotkey hstr] := hstp
            show kk ∈ elementKeys (flushTypingState s).cache
            rcases List.mem_append.1 hstp' with hm | hm
            · exact h1 stp hm kk hk
            · simp only [List.mem_singleton] at hm
              subst hm
              simp [stepElem] at hk
          · intro kk hk
            exact h2 kk hk
      | none =>
          exact recInvariant_keyPressCharPath mkCands normKey win st fo now
            k h
    · rw [if_neg hmod]
      exact recInvariant_keyPressCharPath mkCands normKey win st fo now k h

theorem recInvariant_onKeyPress {s : RecState}
    (mkCands : ElementInfo → List Locator) (normKey : String → String)
    (win st : String) (fo : Option ElementInfo) (now : Nat) (k : KeyEvent)
    (h : recInvariant s) :
    recInvariant (onKeyPress mkCands normKey win st fo now k s) := by
  unfold onKeyPress
  by_cases h0 : s.stopRequested = true
  · rw [if_pos h0]
    exact h
  · rw [if_neg h0]
    by_cases h1 : ¬s.recording ∨ s.stopping
    · rw [if_pos h1]
      exact h
    · rw [if_neg h1]
      exact recInvariant_onKeyPressBody mkCands normKey win st fo now k
        (recInvariant_updateModsPress k h)

theorem recInvariant_onMouseClick {s : RecState}
    (mkCands : ElementInfo → List Locator) (normKey : String → String)
    (win st : String) (oracle : Nat → Option ElementInfo) (now : Nat)
    (pressed : Bool) (h : recInvariant s) :
    recInvariant (onMouseClick mkCands normKey win st oracle now pressed
      s) := by
  unfold onMouseClick
  by_cases hg : ¬s.recording ∨ ¬pressed ∨ s.stopping
  · rw [if_pos hg]
    exact h
  · rw [if_neg hg]
    have hF := recInvariant_flushTypingState h
    cases firstCapture oracle 3 with
    | none => exact recInvariant_congr rfl rfl rfl hF
    | some info =>
        obtain ⟨h1, h2⟩ := hF
        constructor
        · intro stp hstp k hk
          have hstp' : stp ∈ (flushTypingState s).steps ++
              [Step.click (ensureElement mkCands normKey win st
                (flushTypingState s).cache info).1] := hstp
          show k ∈ elementKeys (ensureElement mkCands normKey win st
            (flushTypingState s).cache info).2
          rcases List.mem_append.1 hstp' with hm | hm
          · exact ensureElement_keys_mono mkCands normKey win st
              (flushTypingState s).cache info (h1 stp hm k hk)
          · simp only [List.mem_singleton] at hm
            subst hm
            simp only [stepElem, Option.some.injEq] at hk
            rw [← hk]
            exact ensureElement_key_mem mkCands normKey win st
              (flushTypingState s).cache info
        · intro k hk
          have hk2 : (flushTypingState s).typing.key = some k := hk
          exact ensureElement_keys_mono mkCands normKey win st
            (flushTypingState s).cache info (h2 k hk2)

theorem recInvariant_flushCheckerState {s : RecState} (now : Nat)
    (h : recInvariant s) : recInvariant (flushCheckerState s now) := by
  unfold flushCheckerState
  by_cases hse : s.stopEventSet = true
  · rw [if_pos hse]
    exact h
  · rw [if_neg hse]
    obtain ⟨h1, h2⟩ := h
    constructor
    · intro stp hstp k hk
      have hstp' : stp ∈ s.steps ++
          (flushCheckerFire s.typing now).2.toList := hstp
      show k ∈ elementKeys s.cache
      rcases List.mem_append.1 hstp' with hm | hm
      · exact h1 stp hm k hk
      · cases he : (flushCheckerFire s.typing now).2 with
        | none => rw [he] at hm; simp at hm
        | some stp2 =>
            rw [he] at hm
            simp only [Option.toList_some, List.mem_singleton] at hm
            subst hm
            obtain ⟨k2, hk2, hstp2⟩ := flushCheckerFire_emit he
            rw [hstp2] at hk
            simp only [stepElem, Option.some.injEq] at hk
            subst hk
            exact h2 k2 hk2
    · intro k hk
      have hk' : (flushCheckerFire s.typing now).1.key = some k := hk
      exact h2 k (flushCheckerFire_key hk')

theorem recInvariant_stopFn {s : RecState} (h : recInvariant s) :
    recInvariant (stopFn s) := by
  unfold stopFn
  by_cases hr : s.recording = false
  · rw [if_pos hr]
    exact h
  · rw [if_neg hr]
    exact recInvariant_flushTypingState (recInvariant_congr rfl rfl rfl h)

theorem recInvariant_onKeyRelease {s : RecState} (k : KeyEvent)
    (h : recInvariant s) : recInvariant (onKeyRelease k s) := by
  unfold onKeyRelease
  split_ifs <;> exact recInvariant_congr rfl rfl rfl h

/-- C8: the invariant "every `click`/`type` step's element key is in the
session cache, and so is the key of the in-flight typing span" is
preserved by every recorder operation: the mouse callback, the key-press
callback, a firing of the flush checker, `stop`, and the key-release
callback.  Since the step list starts empty and the cache never drops
keys, every step ever appended references a cached element. -/
theorem c8_steps_reference_cached_elements
    (mkCands : ElementInfo → List Locator) (normKey : String → String)
    (win st : String) (oracle : Nat → Option ElementInfo)
    (fo : Option ElementInfo) (now : Nat) (key kr : KeyEvent)
    (pressed : Bool) (s : RecState) (h : recInvariant s) :
    recInvariant (onMouseClick mkCands normKey win st oracle now pressed
      s) ∧
    recInvariant (onKeyPress mkCands normKey win st fo now key s) ∧
    recInvariant (flushCheckerState s now) ∧
    recInvariant (stopFn s) ∧
    recInvariant (onKeyRelease kr s) :=
  ⟨recInvariant_onMouseClick mkCands normKey win st oracle now pressed h,
   recInvariant_onKeyPress mkCands normKey win st fo now key h,
   recInvariant_flushCheckerState now h,
   recInvariant_stopFn h,
   recInvariant_onKeyRelease kr h⟩

/-- A freshly started recording state (empty step list, empty cache, no
typing span). -/
def c8state : RecState :=
  ⟨true, false, false, false, false, false, false, false, [], [],
   ⟨none, [], 0⟩, 0⟩

/-- Witness for C8 at a concrete input: the invariant holds of the fresh
state and is preserved by a click, a key press, a checker firing, a stop
and a key release applied to it. -/
theorem c8_witness :
    recInvariant c8state ∧
    recInvariant (onMouseClick mkCandsNone normKeyId "main" "default"
      c3oracle 1 true c8state) ∧
    recInvariant (onKeyPress mkCandsNone normKeyId "main" "default"
      (some c3info) 1 ⟨some "a", none⟩ c8state) ∧
    recInvariant (flushCheckerState c8state 1) ∧
    recInvariant (stopFn c8state) ∧
    recInvariant (onKeyRelease ⟨none, some "ctrl_l"⟩ c8state) := by
  have h0 : recInvariant c8state := by
    constructor
    · intro stp hstp k hk
      simp [c8state] at hstp
    · intro k hk
      simp [c8state] at hk
  have h := c8_steps_reference_cached_elements mkCandsNone normKeyId
    "main" "default" c3oracle (some c3info) 1 ⟨some "a", none⟩
    ⟨none, some "ctrl_l"⟩ true c8state h0
  exact ⟨h0, h.1, h.2.1, h.2.2.1, h.2.2.2.1, h.2.2.2.2⟩

end UIAuto
